import Mathlib

set_option autoImplicit false

/-!
Verification of the Cashbook/Ledger core (src/App.tsx, src/types.ts).

Modelling conventions:
* JS numbers are modelled as rationals.  The numeric fields of the app
  (transaction amount, opening balance) are fed from HTML inputs of
  type "number", whose value is either the empty string or a valid
  decimal numeral, so NaN never reaches the handlers; the model makes
  the non-numeric branch a no-op and marks it as unreachable.
* `Number(text)` on the decimal grammar is `jsNumber`; `Number(text) || 0`
  is `(jsNumber text).getD 0` (both NaN and 0 collapse to 0).
* JavaScript `Array.prototype.sort` is stable (ES2019); the ledger sorts
  by `new Date(a.date).getTime()`, which on well-formed `YYYY-MM-DD`
  strings is strictly monotone in the lexicographic string order, so the
  sort is modelled as the stable insertion sort by the `date` string.
* Interactive `confirm()` dialogs are externalized as a boolean
  capability, and the silent guard-returns of the handlers are the
  "validation failure leaves state unchanged" behaviour of the spec.
* Backup documents are modelled by a small JSON value type `JVal`;
  `JSON.parse` failure is the `none` input of `handleImportBackup`.
-/

/-- src/types.ts: TransactionType = DEBIT | CREDIT. -/
inductive TransactionType where
  | DEBIT : TransactionType
  | CREDIT : TransactionType
deriving DecidableEq, Repr

/-- src/types.ts: Transaction. -/
structure Transaction where
  id : String
  customerId : String
  date : String
  description : String
  type : TransactionType
  amount : ℚ
deriving DecidableEq, Repr

/-- src/types.ts: Customer. -/
structure Customer where
  id : String
  companyId : String
  name : String
  phone : String
  address : String
  openingBalance : ℚ
deriving DecidableEq, Repr

/-- src/types.ts: Company (the optional `gst` is a plain string, empty when absent). -/
structure Company where
  id : String
  name : String
  address : String
  gst : String
  financialYear : String
deriving DecidableEq, Repr

/-- The three collections held in React state (App.tsx lines 143-145). -/
structure AppState where
  companies : List Company
  customers : List Customer
  transactions : List Transaction
deriving DecidableEq, Repr

/-- src/types.ts: DashboardStats. -/
structure DashboardStats where
  totalBalance : ℚ
  totalDebit : ℚ
  totalCredit : ℚ
  activeCompanies : ℕ
  activeCustomers : ℕ
deriving DecidableEq, Repr

/-! ### Number parsing (JS `Number`) -/

/-- Value of a list of decimal digit characters, most significant first;
`none` if empty or a non-digit occurs. -/
def digitsVal : List Char → Option ℕ
  | [] => none
  | cs => cs.foldl (fun acc c =>
      match acc with
      | none => none
      | some n => if c.isDigit then some (n * 10 + (c.toNat - 48)) else none)
      (some 0)

/-- JS `Number(s)` restricted to the grammar of HTML number-input values:
optional sign, decimal digits with an optional fraction part.  `none`
models NaN; `Number("") = 0`. -/
def jsNumber (s : String) : Option ℚ :=
  let cs := s.data
  if cs = [] then some 0
  else
    let signed : Bool × List Char :=
      match cs with
      | '-' :: r => (true, r)
      | '+' :: r => (false, r)
      | r => (false, r)
    let neg := signed.1
    let body := signed.2
    let intPart := body.takeWhile (·.isDigit)
    let rest := body.dropWhile (·.isDigit)
    let mag : Option ℚ :=
      match rest with
      | [] => (digitsVal intPart).map (fun n => (n : ℚ))
      | '.' :: frac =>
          if frac.all (·.isDigit) ∧ (intPart ≠ [] ∨ frac ≠ []) then
            let ip : ℕ := (digitsVal intPart).getD 0
            let fp : ℕ := (digitsVal frac).getD 0
            some ((ip : ℚ) + (fp : ℚ) / ((10 : ℚ) ^ frac.length))
          else none
      | _ => none
    mag.map (fun q => if neg then -q else q)

/-- JS falsiness of a nullable string (`!x` for `x : string | null`). -/
def falsyStr : Option String → Bool
  | none => true
  | some s => s = ""

/-! ### Entity-store handlers (App.tsx lines 205-253) -/

/-- App.tsx 205-217, `handleAddCompany`: guard `!companyForm.name`, then
append a freshly-identified company.  The generated id is a parameter. -/
def handleAddCompany (s : AppState) (newId name address gst fy : String) : AppState :=
  if name = "" then s
  else { s with companies := s.companies ++ [⟨newId, name, address, gst, fy⟩] }

/-- App.tsx 219-232, `handleAddCustomer`: guard
`!selectedCompanyId || !customerForm.name`; the opening balance is
`Number(text) || 0`.  No check that the selected company id resolves. -/
def handleAddCustomer (s : AppState) (selectedCompanyId : Option String)
    (newId name phone openingBalanceText : String) : AppState :=
  if falsyStr selectedCompanyId || name = "" then s
  else
    match selectedCompanyId with
    | some coid =>
        { s with customers :=
            s.customers ++ [⟨newId, coid, name, phone, "", (jsNumber openingBalanceText).getD 0⟩] }
    | none => s

/-- App.tsx 234-247, `handleAddTransaction`: guard
`!selectedCustomerId || !txForm.amount`; the stored amount is
`Number(txForm.amount)`.  No check that the customer id resolves and no
positivity check.  The non-numeric branch is unreachable through a
type="number" input (the code would store NaN there, outside this model). -/
def handleAddTransaction (s : AppState) (selectedCustomerId : Option String)
    (newId date desc : String) (ty : TransactionType) (amountText : String) : AppState :=
  if falsyStr selectedCustomerId || amountText = "" then s
  else
    match selectedCustomerId, jsNumber amountText with
    | some cid, some q =>
        { s with transactions := s.transactions ++ [⟨newId, cid, date, desc, ty, q⟩] }
    | _, _ => s

/-- App.tsx 249-253, `deleteTransaction` (the state update inside the
externalized `confirm`): `transactions.filter(t => t.id !== id)`. -/
def deleteTransaction (id : String) (s : AppState) : AppState :=
  { s with transactions := s.transactions.filter (fun t => decide (t.id ≠ id)) }

/-! ### Aggregate stats (App.tsx lines 175-185) -/

/-- App.tsx 175-185, `stats`: filter-and-reduce over all transactions. -/
def stats (s : AppState) : DashboardStats :=
  let totalDebit :=
    (s.transactions.filter (fun t => decide (t.type = .DEBIT))).foldl (fun sum t => sum + t.amount) 0
  let totalCredit :=
    (s.transactions.filter (fun t => decide (t.type = .CREDIT))).foldl (fun sum t => sum + t.amount) 0
  { totalBalance := totalCredit - totalDebit
    totalDebit := totalDebit
    totalCredit := totalCredit
    activeCompanies := s.companies.length
    activeCustomers := s.customers.length }

/-! ### Trend buckets (App.tsx lines 187-202)

The source builds, for a 7-day window ending at the current date, one
bucket per calendar day: the transactions whose `date` string equals the
day's ISO form, summed by type.  Following the spec's parametrization,
the window length and the reference date are explicit arguments; the
source instantiates them with 7 and today.  The displayed label
(`day.split('-').slice(1).reverse().join('/')`) is presentation only;
the bucket here carries the ISO day used for matching. -/

/-- A calendar date (proleptic Gregorian). -/
structure CalDate where
  year : ℕ
  month : ℕ
  day : ℕ
deriving DecidableEq, Repr

def isLeap (y : ℕ) : Bool :=
  (y % 4 = 0 && y % 100 ≠ 0) || y % 400 = 0

def daysInMonth (y m : ℕ) : ℕ :=
  if m = 2 then (if isLeap y then 29 else 28)
  else if m = 4 ∨ m = 6 ∨ m = 9 ∨ m = 11 then 30
  else 31

/-- The previous calendar day (JS `d.setDate(d.getDate() - 1)`). -/
def prevDay (d : CalDate) : CalDate :=
  if d.day > 1 then ⟨d.year, d.month, d.day - 1⟩
  else if d.month > 1 then ⟨d.year, d.month - 1, daysInMonth d.year (d.month - 1)⟩
  else ⟨d.year - 1, 12, 31⟩

/-- `d.setDate(d.getDate() - k)`: going back `k` calendar days. -/
def subDays (d : CalDate) : ℕ → CalDate
  | 0 => d
  | k + 1 => prevDay (subDays d k)

/-- Two-digit zero padding of a day or month number. -/
def pad2 (n : ℕ) : String :=
  if n < 10 then "0" ++ toString n else toString n

/-- The `YYYY-MM-DD` form of a date (JS `toISOString().split('T')[0]`). -/
def isoOf (d : CalDate) : String :=
  toString d.year ++ "-" ++ pad2 d.month ++ "-" ++ pad2 d.day

/-- One day's aggregates in the trend chart (`date` is the ISO day the
source matches transactions against; its display label drops the year). -/
structure TrendBucket where
  date : String
  debit : ℚ
  credit : ℚ
deriving DecidableEq, Repr

/-- App.tsx 187-202, `chartData`, with the window length and reference
date as parameters (source: 7 and the current date): one bucket per day,
oldest first, summing the day's DEBIT and CREDIT amounts. -/
def trend (windowDays : ℕ) (referenceDate : CalDate) (txs : List Transaction) : List TrendBucket :=
  let days := ((List.range windowDays).map (fun i => isoOf (subDays referenceDate i))).reverse
  days.map (fun day =>
    let dayTx := txs.filter (fun t => decide (t.date = day))
    { date := day
      debit := (dayTx.filter (fun t => decide (t.type = .DEBIT))).foldl (fun sum t => sum + t.amount) 0
      credit := (dayTx.filter (fun t => decide (t.type = .CREDIT))).foldl (fun sum t => sum + t.amount) 0 })

/-! ### Running ledger and customer balance (App.tsx lines 510-512, 592-612) -/

/-- Lexicographic comparison of character sequences (the order of
`YYYY-MM-DD` date strings). -/
def charsLE : List Char → List Char → Bool
  | [], _ => true
  | _ :: _, [] => false
  | a :: as, b :: bs =>
    if a.toNat < b.toNat then true
    else if b.toNat < a.toNat then false
    else charsLE as bs

/-- The comparator order of the ledger sort: ascending by date.  The
source compares `new Date(a.date).getTime()`, which on well-formed
`YYYY-MM-DD` strings agrees with the lexicographic order of the date
strings. -/
def dateLE (a b : Transaction) : Prop := charsLE a.date.data b.date.data = true

instance : DecidableRel dateLE :=
  fun a b => inferInstanceAs (Decidable (charsLE a.date.data b.date.data = true))

/-- The ledger's sort (App.tsx 594).  JavaScript `sort` is stable, so it
is modelled by the stable insertion sort over `dateLE`. -/
def sortByDate (l : List Transaction) : List Transaction :=
  l.insertionSort dateLE

/-- One accumulation step of the running balance (App.tsx 596):
CREDIT adds the amount, DEBIT subtracts it. -/
def step (bal : ℚ) (t : Transaction) : ℚ :=
  if t.type = .CREDIT then bal + t.amount else bal - t.amount

/-- The running trace from a starting balance: each transaction paired
with the balance after it (the `runningBal` closure of App.tsx 592-612). -/
def ledgerFrom (bal : ℚ) : List Transaction → List (Transaction × ℚ)
  | [] => []
  | t :: ts => (t, step bal t) :: ledgerFrom (step bal t) ts

/-- The transactions of one customer, in insertion order (App.tsx 511/594). -/
def customerTx (cid : String) (txs : List Transaction) : List Transaction :=
  txs.filter (fun t => decide (t.customerId = cid))

/-- App.tsx 592-612: the customer's transactions, sorted ascending by
date, traced from the opening balance. -/
def runningLedger (c : Customer) (txs : List Transaction) : List (Transaction × ℚ) :=
  ledgerFrom c.openingBalance (sortByDate (customerTx c.id txs))

/-- App.tsx 510-512, `bal`: opening balance plus the credit sum minus
the debit sum of the customer's transactions. -/
def customerBalance (c : Customer) (txs : List Transaction) : ℚ :=
  c.openingBalance
    + ((customerTx c.id txs).filter (fun t => decide (t.type = .CREDIT))).foldl
        (fun s t => s + t.amount) 0
    - ((customerTx c.id txs).filter (fun t => decide (t.type = .DEBIT))).foldl
        (fun s t => s + t.amount) 0

/-- The signed contribution of a transaction to a balance. -/
def signedAmount (t : Transaction) : ℚ :=
  if t.type = .CREDIT then t.amount else -t.amount

/-! ### Backup export and import (App.tsx lines 255-297)

The backup file is JSON.  `handleExportBackup` serializes the three
collections (plus `exportedAt` and `version`); `handleImportBackup`
parses the chosen file, checks `data.companies && data.customers &&
data.transactions` — a truthiness check, not an array check — and, after
a confirmation, assigns the three raw parsed values to the collections.
The JSON data in flight is modelled by `JVal`; an unparseable file is
the `none` input. -/

/-- A parsed JSON value. -/
inductive JVal where
  | null : JVal
  | bool : Bool → JVal
  | num : ℚ → JVal
  | str : String → JVal
  | arr : List JVal → JVal
  | obj : List (String × JVal) → JVal

/-- JS truthiness of `obj.field` (`none` is `undefined`). -/
def truthy : Option JVal → Bool
  | none => false
  | some .null => false
  | some (.bool b) => b
  | some (.num q) => decide (q ≠ 0)
  | some (.str s) => decide (s ≠ "")
  | some (.arr _) => true
  | some (.obj _) => true

/-- JS property access `v.key`: first matching key of an object,
`undefined` otherwise. -/
def JVal.lookup (v : JVal) (key : String) : Option JVal :=
  match v with
  | .obj l =>
    match l.find? (fun p => decide (p.1 = key)) with
    | some p => some p.2
    | none => none
  | _ => none

def encodeType : TransactionType → JVal
  | .DEBIT => .str "DEBIT"
  | .CREDIT => .str "CREDIT"

def encodeCompany (c : Company) : JVal :=
  .obj [("id", .str c.id), ("name", .str c.name), ("address", .str c.address),
        ("gst", .str c.gst), ("financialYear", .str c.financialYear)]

def encodeCustomer (c : Customer) : JVal :=
  .obj [("id", .str c.id), ("companyId", .str c.companyId), ("name", .str c.name),
        ("phone", .str c.phone), ("address", .str c.address),
        ("openingBalance", .num c.openingBalance)]

def encodeTransaction (t : Transaction) : JVal :=
  .obj [("id", .str t.id), ("customerId", .str t.customerId), ("date", .str t.date),
        ("description", .str t.description), ("type", encodeType t.type),
        ("amount", .num t.amount)]

/-- App.tsx 255-272, `handleExportBackup`: the serialized backup document
(the browser download mechanics are external). -/
def exportBackup (s : AppState) (exportedAt : String) : JVal :=
  .obj [("companies", .arr (s.companies.map encodeCompany)),
        ("customers", .arr (s.customers.map encodeCustomer)),
        ("transactions", .arr (s.transactions.map encodeTransaction)),
        ("exportedAt", .str exportedAt),
        ("version", .str "1.0")]

/-- The three collection slots as the import handler sees them: raw
parsed JSON values (the source assigns them to React state unchecked). -/
structure RawCollections where
  companies : JVal
  customers : JVal
  transactions : JVal

/-- What the import handler reports: restore, format alert, read-error
alert, or a declined confirmation. -/
inductive ImportOutcome where
  | success : ImportOutcome
  | invalidFormat : ImportOutcome
  | readError : ImportOutcome
  | cancelled : ImportOutcome
deriving DecidableEq, Repr

/-- App.tsx 274-297, `handleImportBackup`: `none` input models a file
`JSON.parse` throws on (alert "Error reading backup file"); a parsed
document passes when all three fields are truthy and, once confirmed,
its three raw field values replace the collections in one step;
otherwise alert "Invalid backup file format" and keep the state. -/
def handleImportBackup (input : Option JVal) (confirmed : Bool)
    (raw : RawCollections) : RawCollections × ImportOutcome :=
  match input with
  | none => (raw, .readError)
  | some data =>
    if truthy (data.lookup "companies") && truthy (data.lookup "customers")
        && truthy (data.lookup "transactions") then
      if confirmed then
        (⟨(data.lookup "companies").getD .null,
          (data.lookup "customers").getD .null,
          (data.lookup "transactions").getD .null⟩, .success)
      else (raw, .cancelled)
    else (raw, .invalidFormat)

/-! Decoding the raw collections back into typed state: this is how the
rest of the application reads the replaced collections.  (The source
performs no such validation; decoding succeeds exactly on well-shaped
data, e.g. everything `exportBackup` produces.) -/

def decodeType : JVal → Option TransactionType
  | .str "DEBIT" => some .DEBIT
  | .str "CREDIT" => some .CREDIT
  | _ => none

def JVal.asString : JVal → Option String
  | .str s => some s
  | _ => none

def JVal.asNum : JVal → Option ℚ
  | .num q => some q
  | _ => none

def decodeCompany (v : JVal) : Option Company := do
  let id ← (← v.lookup "id").asString
  let name ← (← v.lookup "name").asString
  let address ← (← v.lookup "address").asString
  let gst ← (← v.lookup "gst").asString
  let fy ← (← v.lookup "financialYear").asString
  pure ⟨id, name, address, gst, fy⟩

def decodeCustomer (v : JVal) : Option Customer := do
  let id ← (← v.lookup "id").asString
  let companyId ← (← v.lookup "companyId").asString
  let name ← (← v.lookup "name").asString
  let phone ← (← v.lookup "phone").asString
  let address ← (← v.lookup "address").asString
  let ob ← (← v.lookup "openingBalance").asNum
  pure ⟨id, companyId, name, phone, address, ob⟩

def decodeTransaction (v : JVal) : Option Transaction := do
  let id ← (← v.lookup "id").asString
  let customerId ← (← v.lookup "customerId").asString
  let date ← (← v.lookup "date").asString
  let description ← (← v.lookup "description").asString
  let ty ← decodeType (← v.lookup "type")
  let amount ← (← v.lookup "amount").asNum
  pure ⟨id, customerId, date, description, ty, amount⟩

def decodeListWith {α : Type} (f : JVal → Option α) : JVal → Option (List α)
  | .arr l => l.mapM f
  | _ => none

def decodeCollections (raw : RawCollections) : Option AppState := do
  let companies ← decodeListWith decodeCompany raw.companies
  let customers ← decodeListWith decodeCustomer raw.customers
  let transactions ← decodeListWith decodeTransaction raw.transactions
  pure ⟨companies, customers, transactions⟩

/-- The raw collections produced by importing an export of `s`. -/
def rawOf (s : AppState) : RawCollections :=
  ⟨.arr (s.companies.map encodeCompany),
   .arr (s.customers.map encodeCustomer),
   .arr (s.transactions.map encodeTransaction)⟩

/-! ### Concrete fixtures (the spec's Scenarios A and B) -/

def custA : Customer := ⟨"cust1", "co1", "Asha", "", "", 1000⟩
def txA1 : Transaction := ⟨"t1", "cust1", "2024-01-01", "", .CREDIT, 500⟩
def txA2 : Transaction := ⟨"t2", "cust1", "2024-01-02", "", .DEBIT, 200⟩
def txsA : List Transaction := [txA1, txA2]

def txB1 : Transaction := ⟨"t3", "cust2", "2024-02-01", "", .CREDIT, 100⟩
def txB2 : Transaction := ⟨"t4", "cust2", "2024-02-01", "", .DEBIT, 50⟩
def txsB : List Transaction := [txB1, txB2]

/-- Scenario A's state: one customer with the two Scenario A
transactions (no companies needed for the transaction-level claims). -/
def stateA : AppState := ⟨[⟨"co1", "Co", "", "", "2024-25"⟩], [custA], txsA⟩

/-- An empty starting raw store. -/
def raw0 : RawCollections := ⟨.arr [], .arr [], .arr []⟩

/-- A backup document whose three fields are present and truthy but are
numbers, not sequences. -/
def badBackup : JVal :=
  .obj [("companies", .num 1), ("customers", .num 1), ("transactions", .num 1)]

/-- Scenario D's document: `transactions` missing. -/
def missingBackup : JVal :=
  .obj [("companies", .arr []), ("customers", .arr [])]

/-- The sum of one day's amounts of one type. -/
def daySum (ty : TransactionType) (d : String) (txs : List Transaction) : ℚ :=
  ((txs.filter (fun t => decide (t.date = d) && decide (t.type = ty))).map
    Transaction.amount).sum

/-! ### Helper lemmas: folds, sums, and the running trace -/

theorem foldl_add_amount_eq_sum (l : List Transaction) (b : ℚ) :
    l.foldl (fun s t => s + t.amount) b = b + (l.map Transaction.amount).sum := by
  induction l generalizing b with
  | nil => simp
  | cons t ts ih => simp [List.foldl_cons, ih, add_assoc]

theorem ledgerFrom_map_fst (b : ℚ) (l : List Transaction) :
    (ledgerFrom b l).map Prod.fst = l := by
  induction l generalizing b with
  | nil => rfl
  | cons t ts ih => simp [ledgerFrom, ih]

theorem ledgerFrom_length (b : ℚ) (l : List Transaction) :
    (ledgerFrom b l).length = l.length := by
  have h := congrArg List.length (ledgerFrom_map_fst b l)
  simpa using h

theorem step_eq (b : ℚ) (t : Transaction) : step b t = b + signedAmount t := by
  unfold step signedAmount
  by_cases h : t.type = .CREDIT <;> simp [h, sub_eq_add_neg]

theorem ledgerFrom_snd_getLastD (b : ℚ) (l : List Transaction) :
    ((ledgerFrom b l).map Prod.snd).getLastD b = l.foldl step b := by
  induction l generalizing b with
  | nil => rfl
  | cons t ts ih =>
    simp only [ledgerFrom, List.map_cons, List.foldl_cons]
    rw [List.getLastD_cons]
    exact ih (step b t)

theorem foldl_step_eq_sum (b : ℚ) (l : List Transaction) :
    l.foldl step b = b + (l.map signedAmount).sum := by
  induction l generalizing b with
  | nil => simp
  | cons t ts ih => simp [List.foldl_cons, ih, step_eq, add_assoc]

theorem sum_signed_eq_credit_sub_debit (l : List Transaction) :
    (l.map signedAmount).sum =
      ((l.filter (fun t => decide (t.type = .CREDIT))).map Transaction.amount).sum
        - ((l.filter (fun t => decide (t.type = .DEBIT))).map Transaction.amount).sum := by
  induction l with
  | nil => simp
  | cons t ts ih =>
    by_cases h : t.type = .CREDIT
    · have hd : t.type ≠ .DEBIT := by simp [h]
      simp [signedAmount, h, hd, List.filter_cons, ih]
      ring
    · have hd : t.type = .DEBIT := by cases ht : t.type <;> simp_all
      simp [signedAmount, h, hd, List.filter_cons, ih]
      ring

theorem customerBalance_eq_sum (c : Customer) (txs : List Transaction) :
    customerBalance c txs = c.openingBalance + ((customerTx c.id txs).map signedAmount).sum := by
  unfold customerBalance
  rw [foldl_add_amount_eq_sum, foldl_add_amount_eq_sum, sum_signed_eq_credit_sub_debit]
  ring

theorem sortByDate_perm (l : List Transaction) : (sortByDate l).Perm l :=
  List.perm_insertionSort dateLE l

/-- C1: for every customer, `customerBalance` (opening balance plus the
credit sum minus the debit sum) equals the last `balanceAfter` of
`runningLedger` (the opening balance itself when the ledger is empty),
and this remains true when the transaction list is permuted. -/
theorem customerBalance_eq_last_runningLedger (c : Customer) (txs txs' : List Transaction)
    (h : txs.Perm txs') :
    customerBalance c txs =
      ((runningLedger c txs').map Prod.snd).getLastD c.openingBalance := by
  unfold runningLedger
  rw [ledgerFrom_snd_getLastD, foldl_step_eq_sum, customerBalance_eq_sum]
  have hperm : (sortByDate (customerTx c.id txs')).Perm (customerTx c.id txs) :=
    (sortByDate_perm _).trans (h.filter _).symm
  rw [(hperm.map signedAmount).sum_eq]

/-! ### The sort order: totality, transitivity, reflexivity -/

theorem charsLE_refl : ∀ a : List Char, charsLE a a = true
  | [] => rfl
  | c :: cs => by
    unfold charsLE
    simp [charsLE_refl cs]

theorem charsLE_total : ∀ a b : List Char, charsLE a b = true ∨ charsLE b a = true
  | [], _ => Or.inl rfl
  | _ :: _, [] => Or.inr rfl
  | a :: as, b :: bs => by
    unfold charsLE
    rcases Nat.lt_trichotomy a.toNat b.toNat with h | h | h
    · left; simp [h]
    · have h1 : ¬ a.toNat < b.toNat := by omega
      have h2 : ¬ b.toNat < a.toNat := by omega
      rcases charsLE_total as bs with ih | ih
      · left; simp [h1, h2, ih]
      · right; simp [h1, h2, ih]
    · right; simp [h]

theorem charsLE_trans :
    ∀ a b c : List Char, charsLE a b = true → charsLE b c = true → charsLE a c = true
  | [], _, _, _, _ => rfl
  | _ :: _, [], _, hab, _ => by simp [charsLE] at hab
  | _ :: _, _ :: _, [], _, hbc => by simp [charsLE] at hbc
  | a :: as, b :: bs, c :: cs, hab, hbc => by
    unfold charsLE at hab hbc ⊢
    by_cases h1 : a.toNat < b.toNat <;> by_cases h2 : b.toNat < c.toNat
    · simp [show a.toNat < c.toNat by omega]
    · by_cases h3 : c.toNat < b.toNat
      · simp [h2, h3] at hbc
      · have hbc' : b.toNat = c.toNat := by omega
        simp [show a.toNat < c.toNat by omega]
    · by_cases h4 : b.toNat < a.toNat
      · simp [h1, h4] at hab
      · have hab' : a.toNat = b.toNat := by omega
        simp [show a.toNat < c.toNat by omega]
    · by_cases h4 : b.toNat < a.toNat
      · simp [h1, h4] at hab
      · by_cases h3 : c.toNat < b.toNat
        · simp [h2, h3] at hbc
        · have hab' : a.toNat = b.toNat := by omega
          have hbc' : b.toNat = c.toNat := by omega
          have e1 : ¬ a.toNat < c.toNat := by omega
          have e2 : ¬ c.toNat < a.toNat := by omega
          simp [h1, h4, h2, h3] at hab hbc
          simp [e1, e2]
          exact charsLE_trans as bs cs hab hbc

theorem dateLE_refl (a : Transaction) : dateLE a a := charsLE_refl a.date.data

theorem sortByDate_sorted (l : List Transaction) : (sortByDate l).Sorted dateLE := by
  have hT : IsTotal Transaction dateLE :=
    ⟨fun a b => charsLE_total a.date.data b.date.data⟩
  have hR : IsTrans Transaction dateLE :=
    ⟨fun a b c hab hbc => charsLE_trans a.date.data b.date.data c.date.data hab hbc⟩
  exact List.sorted_insertionSort dateLE l

/-! ### Stability of the sort -/

theorem orderedInsert_of_forall_le {a : Transaction} :
    ∀ {l : List Transaction}, (∀ b ∈ l, dateLE a b) →
      List.orderedInsert dateLE a l = a :: l := by
  intro l h
  cases l with
  | nil => rfl
  | cons b m =>
    simp only [List.orderedInsert]
    rw [if_pos (h b (by simp))]

/-- Inserting into a sorted list commutes with filtering. -/
theorem filter_orderedInsert (p : Transaction → Bool) (a : Transaction) :
    ∀ (l : List Transaction), l.Sorted dateLE →
      (List.orderedInsert dateLE a l).filter p =
        if p a then List.orderedInsert dateLE a (l.filter p) else l.filter p := by
  intro l
  induction l with
  | nil =>
    intro _
    cases hpa : p a <;> simp [List.orderedInsert, List.filter, hpa]
  | cons b m ih =>
    intro hs
    have hsm : m.Sorted dateLE := hs.of_cons
    have hbm : ∀ c ∈ m, dateLE b c := List.rel_of_sorted_cons hs
    simp only [List.orderedInsert]
    by_cases hab : dateLE a b
    · rw [if_pos hab]
      cases hpa : p a with
      | true =>
        have hall : ∀ c ∈ (b :: m).filter p, dateLE a c := by
          intro c hc
          have hc' : c ∈ b :: m := List.mem_of_mem_filter hc
          rcases List.mem_cons.mp hc' with rfl | hcm
          · exact hab
          · exact charsLE_trans _ _ _ hab (hbm c hcm)
        rw [orderedInsert_of_forall_le hall]
        simp [List.filter_cons, hpa]
      | false =>
        simp [List.filter_cons, hpa]
    · rw [if_neg hab]
      cases hpb : p b with
      | true =>
        simp only [List.filter_cons, hpb, ih hsm]
        cases hpa : p a with
        | true =>
          simp only [if_pos]
          rw [List.orderedInsert, if_neg hab]
        | false => simp
      | false =>
        simp only [List.filter_cons, hpb, ih hsm]
        simp

/-- A stable sort commutes with filtering. -/
theorem filter_sortByDate (p : Transaction → Bool) (l : List Transaction) :
    (sortByDate l).filter p = sortByDate (l.filter p) := by
  unfold sortByDate
  induction l with
  | nil => rfl
  | cons a l ih =>
    have hsorted : (List.insertionSort dateLE l).Sorted dateLE := sortByDate_sorted l
    rw [List.insertionSort, filter_orderedInsert p a _ hsorted]
    cases hpa : p a with
    | true =>
      simp only [List.filter_cons, hpa, if_true, ih]
      rw [List.insertionSort]
    | false =>
      simp only [List.filter_cons, hpa, if_false, ih, Bool.false_eq_true]

/-- Equal-date entries are never re-ordered: selecting any one date from
the sorted list returns those entries in their original insertion order. -/
theorem sortByDate_filter_date (l : List Transaction) (d : String) :
    (sortByDate l).filter (fun t => decide (t.date = d)) =
      l.filter (fun t => decide (t.date = d)) := by
  rw [filter_sortByDate]
  apply List.Sorted.insertionSort_eq
  apply List.pairwise_of_forall_mem_list
  intro a ha b hb
  have ha' := List.of_mem_filter ha
  have hb' := List.of_mem_filter hb
  have ea : a.date = d := by simpa using ha'
  have eb : b.date = d := by simpa using hb'
  show charsLE a.date.data b.date.data = true
  rw [ea, eb]
  exact charsLE_refl _

/-! ### The running trace, entry by entry -/

theorem ledgerFrom_snd_get? (b : ℚ) :
    ∀ (l : List Transaction) (i : ℕ), i < l.length →
      ((ledgerFrom b l).map Prod.snd)[i]? =
        some (b + ((l.take (i + 1)).map signedAmount).sum) := by
  intro l
  induction l generalizing b with
  | nil => intro i h; simp at h
  | cons t ts ih =>
    intro i h
    cases i with
    | zero => simp [ledgerFrom, step_eq, List.take]
    | succ n =>
      have hn : n < ts.length := by simpa using h
      simp only [ledgerFrom, List.map_cons, List.getElem?_cons_succ]
      rw [ih (step b t) n hn]
      simp [step_eq, List.take_succ_cons, add_assoc]

/-- C2: `runningLedger` pairs exactly the customer's transactions, in
ascending date order with equal-date entries kept in insertion order
(stable), with balances accumulated from the opening balance, CREDIT
adding and DEBIT subtracting; Scenario A gives balances 1500 and 1300,
and Scenario B (two same-date entries) gives opening+100 then opening+50. -/
theorem runningLedger_spec :
    (∀ (c : Customer) (txs : List Transaction),
        (runningLedger c txs).map Prod.fst = sortByDate (customerTx c.id txs)
        ∧ (sortByDate (customerTx c.id txs)).Perm (customerTx c.id txs)
        ∧ (sortByDate (customerTx c.id txs)).Sorted dateLE
        ∧ (∀ d : String,
            (sortByDate (customerTx c.id txs)).filter (fun t => decide (t.date = d)) =
              (customerTx c.id txs).filter (fun t => decide (t.date = d)))
        ∧ (∀ i : ℕ, i < (customerTx c.id txs).length →
            ((runningLedger c txs).map Prod.snd)[i]? =
              some (c.openingBalance +
                (((sortByDate (customerTx c.id txs)).take (i + 1)).map signedAmount).sum)))
    ∧ ((runningLedger custA txsA).map Prod.snd = [1500, 1300]
        ∧ customerBalance custA txsA = 1300)
    ∧ (∀ ob : ℚ,
        (runningLedger ⟨"cust2", "co1", "Bina", "", "", ob⟩ txsB).map Prod.snd
          = [ob + 100, ob + 50]) := by
  refine ⟨fun c txs => ⟨?_, sortByDate_perm _, sortByDate_sorted _,
      fun d => sortByDate_filter_date _ d, ?_⟩, ⟨?_, ?_⟩, ?_⟩
  · exact ledgerFrom_map_fst _ _
  · intro i hi
    unfold runningLedger
    exact ledgerFrom_snd_get? c.openingBalance _ i
      (by rw [(sortByDate_perm _).length_eq]; exact hi)
  · have hs : sortByDate (customerTx custA.id txsA) = [txA1, txA2] := by decide
    show (ledgerFrom custA.openingBalance (sortByDate (customerTx custA.id txsA))).map
        Prod.snd = [1500, 1300]
    rw [hs]
    show (ledgerFrom 1000 [txA1, txA2]).map Prod.snd = [1500, 1300]
    simp [ledgerFrom, step, txA1, txA2]
    norm_num
  · show customerBalance custA txsA = 1300
    simp [customerBalance, customerTx, custA, txsA, txA1, txA2, List.filter]
    norm_num
  · intro ob
    have hs : sortByDate (customerTx "cust2" txsB) = txsB := by decide
    show (ledgerFrom ob (sortByDate (customerTx "cust2" txsB))).map Prod.snd
      = [ob + 100, ob + 50]
    rw [hs]
    show (ledgerFrom ob [txB1, txB2]).map Prod.snd = [ob + 100, ob + 50]
    simp [ledgerFrom, step, txB1, txB2]
    ring

/-- C2 witness: the accumulation clause instantiated at Scenario A's
first sorted entry. -/
theorem runningLedger_spec_witness :
    0 < (customerTx custA.id txsA).length ∧
      ((runningLedger custA txsA).map Prod.snd)[0]? =
        some (custA.openingBalance +
          (((sortByDate (customerTx custA.id txsA)).take 1).map signedAmount).sum) :=
  ⟨by decide, (runningLedger_spec.1 custA txsA).2.2.2.2 0 (by decide)⟩

/-- C1 witness: Scenario A's data, with the two transactions inserted in
the reversed order. -/
theorem customerBalance_eq_last_runningLedger_witness :
    txsA.Perm [txA2, txA1] ∧
      customerBalance custA txsA =
        ((runningLedger custA [txA2, txA1]).map Prod.snd).getLastD custA.openingBalance :=
  ⟨List.Perm.swap txA2 txA1 [],
    customerBalance_eq_last_runningLedger custA txsA [txA2, txA1] (List.Perm.swap txA2 txA1 [])⟩

/-- C7: `aggregateStats` sums the DEBIT amounts and the CREDIT amounts
over the whole transaction collection, reports their difference as the
net balance, and reports the collection sizes as the counts. -/
theorem stats_spec (s : AppState) :
    (stats s).totalDebit =
        ((s.transactions.filter (fun t => decide (t.type = .DEBIT))).map Transaction.amount).sum
    ∧ (stats s).totalCredit =
        ((s.transactions.filter (fun t => decide (t.type = .CREDIT))).map Transaction.amount).sum
    ∧ (stats s).totalBalance = (stats s).totalCredit - (stats s).totalDebit
    ∧ (stats s).activeCompanies = s.companies.length
    ∧ (stats s).activeCustomers = s.customers.length := by
  refine ⟨?_, ?_, rfl, rfl, rfl⟩ <;>
    simp [stats, foldl_add_amount_eq_sum]

/-! ### Trend lemmas -/

theorem trend_length (w : ℕ) (ref : CalDate) (txs : List Transaction) :
    (trend w ref txs).length = w := by
  simp [trend]

theorem trend_getElem? (w : ℕ) (ref : CalDate) (txs : List Transaction)
    (k : ℕ) (hk : k < w) :
    (trend w ref txs)[w - 1 - k]? =
      some ⟨isoOf (subDays ref k),
        daySum .DEBIT (isoOf (subDays ref k)) txs,
        daySum .CREDIT (isoOf (subDays ref k)) txs⟩ := by
  unfold trend
  rw [List.getElem?_map,
    List.getElem?_reverse
      (by simp; omega : w - 1 - k < ((List.range w).map (fun i => isoOf (subDays ref i))).length)]
  have harith : ((List.range w).map (fun i => isoOf (subDays ref i))).length - 1 - (w - 1 - k)
      = k := by
    simp; omega
  rw [harith, List.getElem?_map, List.getElem?_range hk]
  simp only [Option.map_some]
  refine congrArg some ?_
  have hsw : ∀ (ty : TransactionType) (d : String),
      txs.filter (fun a => decide (a.type = ty) && decide (a.date = d)) =
        txs.filter (fun a => decide (a.date = d) && decide (a.type = ty)) := by
    intro ty d
    apply List.filter_congr
    intro a _
    exact Bool.and_comm _ _
  simp only [List.filter_filter]
  unfold daySum
  rw [foldl_add_amount_eq_sum, foldl_add_amount_eq_sum, zero_add, zero_add, hsw, hsw]

/-- C8: `trend` returns exactly `windowDays` buckets, oldest first, the
k-th from the last keyed by the calendar day k days before the reference
date; each bucket sums the amounts of the transactions whose date string
equals the bucket's day, a day without matches reporting zero for both
sums; Scenario C gives three all-zero buckets for 2024-03-08..10. -/
theorem trend_spec :
    (∀ (w : ℕ) (ref : CalDate) (txs : List Transaction),
        (trend w ref txs).length = w
        ∧ (∀ k : ℕ, k < w →
            (trend w ref txs)[w - 1 - k]? =
              some ⟨isoOf (subDays ref k),
                daySum .DEBIT (isoOf (subDays ref k)) txs,
                daySum .CREDIT (isoOf (subDays ref k)) txs⟩)
        ∧ (∀ k : ℕ, k < w → (∀ t ∈ txs, t.date ≠ isoOf (subDays ref k)) →
            (trend w ref txs)[w - 1 - k]? = some ⟨isoOf (subDays ref k), 0, 0⟩))
    ∧ trend 3 ⟨2024, 3, 10⟩ [] =
        [⟨"2024-03-08", 0, 0⟩, ⟨"2024-03-09", 0, 0⟩, ⟨"2024-03-10", 0, 0⟩] := by
  refine ⟨fun w ref txs => ⟨trend_length w ref txs, fun k hk => trend_getElem? w ref txs k hk,
    fun k hk hnone => ?_⟩, by decide⟩
  rw [trend_getElem? w ref txs k hk]
  have hd : ∀ ty : TransactionType, daySum ty (isoOf (subDays ref k)) txs = 0 := by
    intro ty
    unfold daySum
    have : txs.filter (fun t => decide (t.date = isoOf (subDays ref k)) &&
        decide (t.type = ty)) = [] := by
      rw [List.filter_eq_nil_iff]
      intro t ht
      simp [hnone t ht]
    rw [this]
    simp
  rw [hd .DEBIT, hd .CREDIT]

/-- C8 witness: the bucket clause instantiated on Scenario A's data at
the reference day itself. -/
theorem trend_spec_witness :
    0 < 3 ∧ (trend 3 ⟨2024, 1, 2⟩ txsA)[3 - 1 - 0]? =
      some ⟨isoOf (subDays ⟨2024, 1, 2⟩ 0),
        daySum .DEBIT (isoOf (subDays ⟨2024, 1, 2⟩ 0)) txsA,
        daySum .CREDIT (isoOf (subDays ⟨2024, 1, 2⟩ 0)) txsA⟩ :=
  ⟨by decide, (trend_spec.1 3 ⟨2024, 1, 2⟩ txsA).2.1 0 (by decide)⟩

/-! ### Deletion lemmas -/

theorem ledgerFrom_append (b : ℚ) (u v : List Transaction) :
    ledgerFrom b (u ++ v) = ledgerFrom b u ++ ledgerFrom (u.foldl step b) v := by
  induction u generalizing b with
  | nil => simp [ledgerFrom]
  | cons t ts ih => simp [ledgerFrom, List.foldl_cons, ih]

theorem ledgerFrom_shift (b d : ℚ) (v : List Transaction) :
    ledgerFrom (b + d) v = (ledgerFrom b v).map (fun e => (e.1, e.2 + d)) := by
  induction v generalizing b with
  | nil => rfl
  | cons t ts ih =>
    have hstep : step (b + d) t = step b t + d := by
      rw [step_eq, step_eq]; ring
    simp [ledgerFrom, hstep, ih]

theorem mem_ledgerFrom_fst {e : Transaction × ℚ} {b : ℚ} {l : List Transaction}
    (h : e ∈ ledgerFrom b l) : e.1 ∈ l := by
  have hm := List.mem_map_of_mem Prod.fst h
  rwa [ledgerFrom_map_fst] at hm

theorem nodup_ids_sortByDate {txs : List Transaction} (h : (txs.map Transaction.id).Nodup)
    (cid : String) : ((sortByDate (customerTx cid txs)).map Transaction.id).Nodup := by
  have h1 : ((customerTx cid txs).map Transaction.id).Nodup :=
    h.sublist (List.Sublist.map Transaction.id (List.filter_sublist txs))
  exact (((sortByDate_perm (customerTx cid txs)).map Transaction.id).nodup_iff).mpr h1

theorem filter_ne_id_of_not_mem {l : List Transaction} {tid : String}
    (h : tid ∉ l.map Transaction.id) :
    l.filter (fun t => decide (t.id ≠ tid)) = l := by
  rw [List.filter_eq_self]
  intro a ha
  simp only [decide_eq_true_eq]
  intro he
  exact h (he ▸ List.mem_map_of_mem Transaction.id ha)

theorem customerTx_filter_comm (cid tid : String) (l : List Transaction) :
    customerTx cid (l.filter (fun t => decide (t.id ≠ tid))) =
      (customerTx cid l).filter (fun t => decide (t.id ≠ tid)) := by
  unfold customerTx
  rw [List.filter_filter, List.filter_filter]
  apply List.filter_congr
  intro a _
  exact Bool.and_comm _ _

/-- C9: `deleteTransaction` leaves companies and customers untouched; it
is a no-op when no transaction carries the id; with unique ids it
removes exactly the matching entry; afterwards the customer's running
ledger has no entry with that id, the entries before the deleted one are
unchanged, and every later entry's balance is shifted by the deleted
transaction's signed amount. -/
theorem deleteTransaction_spec (s : AppState) (tid : String) :
    ((deleteTransaction tid s).companies = s.companies
        ∧ (deleteTransaction tid s).customers = s.customers)
    ∧ ((∀ t ∈ s.transactions, t.id ≠ tid) → deleteTransaction tid s = s)
    ∧ (∀ (l1 l2 : List Transaction) (tx : Transaction),
        s.transactions = l1 ++ tx :: l2 → tx.id = tid →
        (s.transactions.map Transaction.id).Nodup →
        (deleteTransaction tid s).transactions = l1 ++ l2)
    ∧ (∀ c : Customer, ∀ e ∈ runningLedger c (deleteTransaction tid s).transactions,
        e.1.id ≠ tid)
    ∧ (∀ (c : Customer) (u v : List Transaction) (tx : Transaction),
        sortByDate (customerTx c.id s.transactions) = u ++ tx :: v → tx.id = tid →
        (s.transactions.map Transaction.id).Nodup →
        runningLedger c (deleteTransaction tid s).transactions =
          (runningLedger c s.transactions).take u.length ++
            ((runningLedger c s.transactions).drop (u.length + 1)).map
              (fun e => (e.1, e.2 - signedAmount tx))) := by
  refine ⟨⟨rfl, rfl⟩, ?_, ?_, ?_, ?_⟩
  · intro h
    have hf : s.transactions.filter (fun t => decide (t.id ≠ tid)) = s.transactions := by
      rw [List.filter_eq_self]
      intro a ha
      simp [h a ha]
    unfold deleteTransaction
    rw [hf]
  · intro l1 l2 tx h1 h2 h3
    subst h2
    rw [h1] at h3
    show (s.transactions).filter _ = l1 ++ l2
    rw [h1]
    have hmap : (l1.map Transaction.id ++ tx.id :: l2.map Transaction.id).Nodup := by
      simpa using h3
    have hdisj := (List.nodup_append.mp hmap).2.2
    have hnl1 : tx.id ∉ l1.map Transaction.id := by
      intro hmem
      exact hdisj hmem (List.mem_cons_self _ _)
    have hnl2 : tx.id ∉ l2.map Transaction.id :=
      (List.nodup_cons.mp (List.nodup_append.mp hmap).2.1).1
    rw [List.filter_append, filter_ne_id_of_not_mem hnl1, List.filter_cons]
    simp
    intro a ha hEq
    exact hnl2 (hEq ▸ List.mem_map_of_mem Transaction.id ha)
  · intro c e he
    have h1 : e.1 ∈ sortByDate (customerTx c.id (deleteTransaction tid s).transactions) :=
      mem_ledgerFrom_fst he
    have h2 : e.1 ∈ customerTx c.id (deleteTransaction tid s).transactions :=
      (sortByDate_perm _).mem_iff.mp h1
    have h3 : e.1 ∈ (deleteTransaction tid s).transactions :=
      List.mem_of_mem_filter h2
    have h4 := List.of_mem_filter h3
    simpa using h4
  · intro c u v tx hsplit htid hnd
    subst htid
    have hA : customerTx c.id (deleteTransaction tx.id s).transactions
        = (customerTx c.id s.transactions).filter (fun t => decide (t.id ≠ tx.id)) := by
      show customerTx c.id (s.transactions.filter _) = _
      exact customerTx_filter_comm c.id tx.id s.transactions
    have hnd' : ((u ++ tx :: v).map Transaction.id).Nodup := by
      have := nodup_ids_sortByDate hnd c.id
      rwa [hsplit] at this
    have hmap : (u.map Transaction.id ++ tx.id :: v.map Transaction.id).Nodup := by
      simpa using hnd'
    have hdisj := (List.nodup_append.mp hmap).2.2
    have hnu : tx.id ∉ u.map Transaction.id := by
      intro hmem
      exact hdisj hmem (List.mem_cons_self _ _)
    have hnv : tx.id ∉ v.map Transaction.id :=
      (List.nodup_cons.mp (List.nodup_append.mp hmap).2.1).1
    have hB : sortByDate (customerTx c.id (deleteTransaction tx.id s).transactions) = u ++ v := by
      rw [hA, ← filter_sortByDate, hsplit, List.filter_append,
        filter_ne_id_of_not_mem hnu, List.filter_cons]
      simp
      intro a ha hEq
      exact hnv (hEq ▸ List.mem_map_of_mem Transaction.id ha)
    show ledgerFrom c.openingBalance (sortByDate (customerTx c.id _)) = _
    rw [hB]
    unfold runningLedger
    rw [hsplit]
    rw [ledgerFrom_append c.openingBalance u (tx :: v),
      ledgerFrom_append c.openingBalance u v]
    have hlen : (ledgerFrom c.openingBalance u).length = u.length := ledgerFrom_length _ _
    rw [List.take_left' hlen]
    have hcons : ledgerFrom (u.foldl step c.openingBalance) (tx :: v)
        = (tx, step (u.foldl step c.openingBalance) tx)
            :: ledgerFrom (step (u.foldl step c.openingBalance) tx) v := rfl
    rw [hcons]
    have hdrop : (ledgerFrom c.openingBalance u ++
          (tx, step (u.foldl step c.openingBalance) tx)
            :: ledgerFrom (step (u.foldl step c.openingBalance) tx) v).drop (u.length + 1)
        = ledgerFrom (step (u.foldl step c.openingBalance) tx) v := by
      rw [show ledgerFrom c.openingBalance u ++
          (tx, step (u.foldl step c.openingBalance) tx)
            :: ledgerFrom (step (u.foldl step c.openingBalance) tx) v
        = (ledgerFrom c.openingBalance u ++ [(tx, step (u.foldl step c.openingBalance) tx)])
            ++ ledgerFrom (step (u.foldl step c.openingBalance) tx) v by simp]
      exact List.drop_left' (by simp [hlen])
    rw [hdrop]
    have hshift : ledgerFrom (u.foldl step c.openingBalance) v
        = (ledgerFrom (step (u.foldl step c.openingBalance) tx) v).map
            (fun e => (e.1, e.2 - signedAmount tx)) := by
      have h1 := ledgerFrom_shift (step (u.foldl step c.openingBalance) tx)
        (-(signedAmount tx)) v
      have hb : step (u.foldl step c.openingBalance) tx + -signedAmount tx
          = u.foldl step c.openingBalance := by
        rw [step_eq]; ring
      rw [hb] at h1
      rw [h1]
      simp [sub_eq_add_neg]
    rw [hshift]

/-- C10: each successful add operation appends exactly one new record at
the end of its own collection — keeping every earlier record in place
and in order — and leaves the other two collections unchanged. -/
theorem add_frame_spec (s : AppState) :
    (∀ newId name address gst fy : String, name ≠ "" →
        handleAddCompany s newId name address gst fy =
          { s with companies := s.companies ++ [⟨newId, name, address, gst, fy⟩] })
    ∧ (∀ coid newId name phone obText : String, coid ≠ "" → name ≠ "" →
        handleAddCustomer s (some coid) newId name phone obText =
          { s with customers :=
              s.customers ++ [⟨newId, coid, name, phone, "", (jsNumber obText).getD 0⟩] })
    ∧ (∀ (cid newId date desc : String) (ty : TransactionType) (amountText : String) (q : ℚ),
        cid ≠ "" → amountText ≠ "" → jsNumber amountText = some q →
        handleAddTransaction s (some cid) newId date desc ty amountText =
          { s with transactions := s.transactions ++ [⟨newId, cid, date, desc, ty, q⟩] }) := by
  refine ⟨?_, ?_, ?_⟩
  · intro newId name address gst fy h
    unfold handleAddCompany
    rw [if_neg h]
  · intro coid newId name phone obText h1 h2
    unfold handleAddCustomer
    simp [falsyStr, h1, h2]
  · intro cid newId date desc ty amountText q h1 h2 h3
    unfold handleAddTransaction
    simp [falsyStr, h1, h2, h3]

/-- C10 witness: the three adds on Scenario A's state. -/
theorem add_frame_spec_witness :
    ("NewCo" ≠ "" ∧ handleAddCompany stateA "co9" "NewCo" "addr" "" "2024-25" =
        { stateA with companies := stateA.companies ++ [⟨"co9", "NewCo", "addr", "", "2024-25"⟩] })
    ∧ ("co1" ≠ "" ∧ "Chitra" ≠ "" ∧
        handleAddCustomer stateA (some "co1") "cust9" "Chitra" "" "250" =
          { stateA with customers :=
              stateA.customers ++ [⟨"cust9", "co1", "Chitra", "", "", (jsNumber "250").getD 0⟩] })
    ∧ ("cust1" ≠ "" ∧ "75" ≠ "" ∧ jsNumber "75" = some 75 ∧
        handleAddTransaction stateA (some "cust1") "t9" "2024-01-03" "" .DEBIT "75" =
          { stateA with transactions :=
              stateA.transactions ++ [⟨"t9", "cust1", "2024-01-03", "", .DEBIT, 75⟩] }) :=
  ⟨⟨by decide, (add_frame_spec stateA).1 "co9" "NewCo" "addr" "" "2024-25" (by decide)⟩,
   ⟨by decide, by decide,
     (add_frame_spec stateA).2.1 "co1" "cust9" "Chitra" "" "250" (by decide) (by decide)⟩,
   ⟨by decide, by decide, by decide,
     (add_frame_spec stateA).2.2 "cust1" "t9" "2024-01-03" "" .DEBIT "75" 75
       (by decide) (by decide) (by decide)⟩⟩

/-- C9 witness: deleting Scenario A's first transaction from Scenario
A's state shifts the remaining balance by its signed amount. -/
theorem deleteTransaction_spec_witness :
    sortByDate (customerTx custA.id stateA.transactions) = [] ++ txA1 :: [txA2]
    ∧ txA1.id = "t1"
    ∧ (stateA.transactions.map Transaction.id).Nodup
    ∧ runningLedger custA (deleteTransaction "t1" stateA).transactions =
        (runningLedger custA stateA.transactions).take (List.length ([] : List Transaction)) ++
          ((runningLedger custA stateA.transactions).drop
              (List.length ([] : List Transaction) + 1)).map
            (fun e => (e.1, e.2 - signedAmount txA1)) :=
  ⟨by decide, by decide, by decide,
    (deleteTransaction_spec stateA "t1").2.2.2.2 custA [] [txA2] txA1 (by decide) (by decide)
      (by decide)⟩

/-- C3 counterexample: with an existing customer validly selected and
amount text "0" — which parses to the non-positive number 0 — the
handler appends a zero-amount transaction instead of rejecting. -/
theorem handleAddTransaction_zero_accepted :
    handleAddTransaction stateA (some "cust1") "t9" "2024-01-03" "" .CREDIT "0" ≠ stateA
    ∧ (handleAddTransaction stateA (some "cust1") "t9" "2024-01-03" "" .CREDIT "0").transactions
        = stateA.transactions ++ [⟨"t9", "cust1", "2024-01-03", "", .CREDIT, 0⟩] := by
  constructor
  · decide
  · decide

/-- C3 (amended): `addTransaction` rejects — silently, leaving the state
unchanged — exactly when no customer is selected or the amount text is
empty; otherwise it appends exactly one transaction carrying the parsed
amount, with no check that the selected customer id resolves and no
positivity check (zero and negative amounts are stored). -/
theorem handleAddTransaction_spec (s : AppState) (sel : Option String)
    (newId date desc : String) (ty : TransactionType) (amountText : String) :
    (falsyStr sel = true ∨ amountText = "" →
        handleAddTransaction s sel newId date desc ty amountText = s)
    ∧ (∀ (cid : String) (q : ℚ), sel = some cid → cid ≠ "" → amountText ≠ "" →
        jsNumber amountText = some q →
        handleAddTransaction s sel newId date desc ty amountText =
          { s with transactions := s.transactions ++ [⟨newId, cid, date, desc, ty, q⟩] }) := by
  constructor
  · intro h
    unfold handleAddTransaction
    rcases h with h | h
    · rw [h]
      simp
    · simp [h]
  · intro cid q hsel h1 h2 h3
    subst hsel
    unfold handleAddTransaction
    simp [falsyStr, h1, h2, h3]

/-- C3 witness: a negative amount is appended as-is. -/
theorem handleAddTransaction_spec_witness :
    (some "cust1" : Option String) = some "cust1" ∧ "cust1" ≠ "" ∧ "-5" ≠ ""
    ∧ jsNumber "-5" = some (-5)
    ∧ handleAddTransaction stateA (some "cust1") "t9" "2024-01-03" "" .DEBIT "-5" =
        { stateA with transactions :=
            stateA.transactions ++ [⟨"t9", "cust1", "2024-01-03", "", .DEBIT, -5⟩] } :=
  ⟨rfl, by decide, by decide, by decide,
    (handleAddTransaction_spec stateA (some "cust1") "t9" "2024-01-03" "" .DEBIT "-5").2
      "cust1" (-5) rfl (by decide) (by decide) (by decide)⟩

/-- C4 counterexample: with a selected company id that resolves to no
existing company, the handler still appends the customer — with a
dangling foreign key — instead of rejecting. -/
theorem handleAddCustomer_dangling_company :
    (∀ co ∈ stateA.companies, co.id ≠ "ghost")
    ∧ handleAddCustomer stateA (some "ghost") "cust9" "Dev" "" "10" ≠ stateA
    ∧ (handleAddCustomer stateA (some "ghost") "cust9" "Dev" "" "10").customers
        = stateA.customers ++ [⟨"cust9", "ghost", "Dev", "", "", 10⟩] := by
  refine ⟨by decide, by decide, by decide⟩

/-- C4 (amended): `addCustomer` rejects — silently, leaving the state
unchanged — exactly when no company is selected or the name is empty;
the selected company id is not checked against the companies collection;
on success it appends exactly one customer whose opening balance is the
parse of the text, defaulting to 0 when it does not parse. -/
theorem handleAddCustomer_spec (s : AppState) (sel : Option String)
    (newId name phone obText : String) :
    (falsyStr sel = true ∨ name = "" →
        handleAddCustomer s sel newId name phone obText = s)
    ∧ (∀ coid : String, sel = some coid → coid ≠ "" → name ≠ "" →
        handleAddCustomer s sel newId name phone obText =
          { s with customers :=
              s.customers ++ [⟨newId, coid, name, phone, "", (jsNumber obText).getD 0⟩] }) := by
  constructor
  · intro h
    unfold handleAddCustomer
    rcases h with h | h
    · rw [h]
      simp
    · simp [h]
  · intro coid hsel h1 h2
    subst hsel
    unfold handleAddCustomer
    simp [falsyStr, h1, h2]

/-- C4 witness: an unparsable opening-balance text defaults to 0. -/
theorem handleAddCustomer_spec_witness :
    (some "co1" : Option String) = some "co1" ∧ "co1" ≠ "" ∧ "Esha" ≠ ""
    ∧ handleAddCustomer stateA (some "co1") "cust9" "Esha" "" "" =
        { stateA with customers :=
            stateA.customers ++ [⟨"cust9", "co1", "Esha", "", "", (jsNumber "").getD 0⟩] } :=
  ⟨rfl, by decide, by decide,
    (handleAddCustomer_spec stateA (some "co1") "cust9" "Esha" "" "").2
      "co1" rfl (by decide) (by decide)⟩

/-- C5 counterexample: a parsed document whose three required fields are
present but are numbers — not sequences — passes the import validation
and replaces all three collections with those numbers. -/
theorem handleImportBackup_accepts_non_sequences :
    handleImportBackup (some badBackup) true raw0 =
      (⟨.num 1, .num 1, .num 1⟩, .success) := rfl

/-- C5 (amended): import validates only that the three fields are
present and truthy — every sequence passes, but so does any other truthy
value; an unparseable file reports a read error and leaves the
collections untouched; a missing (or falsy) field reports an invalid
format and leaves the collections untouched; when validation passes and
the replacement is confirmed, the three raw field values replace the
collections in one step. -/
theorem handleImportBackup_spec (input : Option JVal) (confirmed : Bool)
    (raw : RawCollections) :
    (input = none → handleImportBackup input confirmed raw = (raw, .readError))
    ∧ (∀ data : JVal, input = some data →
        (truthy (data.lookup "companies") && truthy (data.lookup "customers")
            && truthy (data.lookup "transactions")) = false →
        handleImportBackup input confirmed raw = (raw, .invalidFormat))
    ∧ (∀ data : JVal, input = some data → confirmed = true →
        (truthy (data.lookup "companies") && truthy (data.lookup "customers")
            && truthy (data.lookup "transactions")) = true →
        handleImportBackup input confirmed raw =
          (⟨(data.lookup "companies").getD .null,
            (data.lookup "customers").getD .null,
            (data.lookup "transactions").getD .null⟩, .success))
    ∧ (∀ data : JVal, input = some data → confirmed = false →
        (truthy (data.lookup "companies") && truthy (data.lookup "customers")
            && truthy (data.lookup "transactions")) = true →
        handleImportBackup input confirmed raw = (raw, .cancelled)) := by
  refine ⟨?_, ?_, ?_, ?_⟩
  · intro h
    subst h
    rfl
  · intro data h hcond
    subst h
    simp [handleImportBackup, hcond]
  · intro data h hconf hcond
    subst h
    subst hconf
    simp [handleImportBackup, hcond]
  · intro data h hconf hcond
    subst h
    subst hconf
    simp [handleImportBackup, hcond]

/-- C5 witness: Scenario D — a snapshot missing `transactions` is
rejected as an invalid format, the collections staying as they were. -/
theorem handleImportBackup_spec_witness :
    (some missingBackup : Option JVal) = some missingBackup
    ∧ (truthy (missingBackup.lookup "companies")
        && truthy (missingBackup.lookup "customers")
        && truthy (missingBackup.lookup "transactions")) = false
    ∧ handleImportBackup (some missingBackup) true raw0 = (raw0, .invalidFormat) :=
  ⟨rfl, rfl,
    (handleImportBackup_spec (some missingBackup) true raw0).2.1 missingBackup rfl rfl⟩

/-! ### Round-trip of the backup encoding -/

theorem decodeCompany_encodeCompany (c : Company) :
    decodeCompany (encodeCompany c) = some c := rfl

theorem decodeCustomer_encodeCustomer (c : Customer) :
    decodeCustomer (encodeCustomer c) = some c := rfl

theorem decodeTransaction_encodeTransaction (t : Transaction) :
    decodeTransaction (encodeTransaction t) = some t := by
  cases t with
  | mk id cid date desc ty amount => cases ty <;> rfl

theorem mapM_map_eq_some {α : Type} (enc : α → JVal) (dec : JVal → Option α)
    (h : ∀ a : α, dec (enc a) = some a) :
    ∀ l : List α, (l.map enc).mapM dec = some l := by
  intro l
  induction l with
  | nil => rfl
  | cons a l ih =>
    rw [List.map_cons, List.mapM_cons, h a, ih]
    rfl

theorem decodeCollections_rawOf (s : AppState) : decodeCollections (rawOf s) = some s := by
  unfold decodeCollections rawOf decodeListWith
  rw [show (JVal.arr (s.companies.map encodeCompany)) = JVal.arr (s.companies.map encodeCompany)
    from rfl]
  simp only [mapM_map_eq_some encodeCompany decodeCompany decodeCompany_encodeCompany,
    mapM_map_eq_some encodeCustomer decodeCustomer decodeCustomer_encodeCustomer,
    mapM_map_eq_some encodeTransaction decodeTransaction decodeTransaction_encodeTransaction]
  rfl

/-- C6: importing the snapshot produced by export succeeds (under the
confirmation), stores exactly the encoded collections, and those decode
back to the original state, so aggregate stats and every customer's
running ledger are reproduced unchanged. -/
theorem export_import_roundtrip (s : AppState) (exportedAt : String) (raw : RawCollections) :
    handleImportBackup (some (exportBackup s exportedAt)) true raw = (rawOf s, .success)
    ∧ decodeCollections (rawOf s) = some s
    ∧ (∀ s' : AppState, decodeCollections (rawOf s) = some s' →
        stats s' = stats s
        ∧ ∀ c : Customer, runningLedger c s'.transactions = runningLedger c s.transactions) := by
  refine ⟨rfl, decodeCollections_rawOf s, ?_⟩
  intro s' h
  rw [decodeCollections_rawOf s] at h
  cases h
  exact ⟨rfl, fun c => rfl⟩

/-- C6 witness: the round trip on Scenario A's state. -/
theorem export_import_roundtrip_witness :
    decodeCollections (rawOf stateA) = some stateA
    ∧ stats stateA = stats stateA
    ∧ ∀ c : Customer, runningLedger c stateA.transactions = runningLedger c stateA.transactions :=
  ⟨decodeCollections_rawOf stateA,
    (export_import_roundtrip stateA "2024-06-01" raw0).2.2 stateA (by rfl)⟩
